import Mathlib

/-!
Verification of the agent decision/learning engine and game payoff engine of
the repository (games in game/base_game.py, agents in agent/simple_agent.py,
agent/med_agent.py, agent/adv_agent.py, agent/base_agent.py, factory in
agent/agent_factory.py).  Python numbers are modelled as rationals, Python
dictionaries as association lists with dict insertion order (update an
existing key in place, append a fresh key at the end), and raised exceptions
(AssertionError, ValueError, ZeroDivisionError) as the value none of an
Option result.
-/

namespace Repo452

/-- A Python value as far as the claims need it: a string or a number.
Used to compare action symbols returned by agents with the action alphabet
returned by PublicGoodsGame.get_actions, which holds numbers. -/
inductive PyVal where
  | str (s : String)
  | num (q : ℚ)
deriving DecidableEq

/-! ### Games (game/base_game.py) -/

/-- The PrisonersDilemma payoff parameters, as stored by its constructor
through the payoff matrix entries (C,C) = (R,R), (C,D) = (S,T),
(D,C) = (T,S), (D,D) = (P,P). -/
structure PrisonersDilemma where
  R : ℚ
  S : ℚ
  T : ℚ
  P : ℚ
deriving DecidableEq

namespace PrisonersDilemma

/-- Constructor of PrisonersDilemma: asserts T > R > P > S, an
AssertionError (modelled as none) otherwise. -/
def mk? (R S T P : ℚ) : Option PrisonersDilemma :=
  if T > R ∧ R > P ∧ P > S then some ⟨R, S, T, P⟩ else none

/-- PrisonersDilemma.play: dictionary lookup in PAYOFF_MATRIX; a pair of
actions outside the four keys is a KeyError (modelled as none). -/
def play (g : PrisonersDilemma) (action1 action2 : String) : Option (ℚ × ℚ) :=
  if action1 = "C" ∧ action2 = "C" then some (g.R, g.R)
  else if action1 = "C" ∧ action2 = "D" then some (g.S, g.T)
  else if action1 = "D" ∧ action2 = "C" then some (g.T, g.S)
  else if action1 = "D" ∧ action2 = "D" then some (g.P, g.P)
  else none

/-- PrisonersDilemma.get_actions. -/
def get_actions : List String := ["C", "D"]

end PrisonersDilemma

/-- PublicGoodsGame constructor state: n_players, multiplier, endowment. -/
structure PublicGoodsGame where
  n : ℕ
  r : ℚ
  endowment : ℚ
deriving DecidableEq

namespace PublicGoodsGame

/-- PublicGoodsGame.play: asserts len(contributions) == n (AssertionError
modelled as none); then public_benefit = r * total / n, which raises
ZeroDivisionError when n = 0 (also modelled as none); each player receives
(endowment - c) + public_benefit. -/
def play (g : PublicGoodsGame) (contributions : List ℚ) : Option (List ℚ) :=
  if contributions.length = g.n then
    if g.n = 0 then none
    else
      some (contributions.map fun c =>
        (g.endowment - c) + g.r * contributions.sum / (g.n : ℚ))
  else none

/-- PublicGoodsGame.get_actions: the binary alphabet [0, endowment],
a list of numbers. -/
def get_actions (g : PublicGoodsGame) : List PyVal :=
  [PyVal.num 0, PyVal.num g.endowment]

end PublicGoodsGame

/-- CoordinationGame constructor state. -/
structure CoordinationGame where
  high_payoff : ℚ
  low_payoff : ℚ
  mismatch : ℚ
deriving DecidableEq

namespace CoordinationGame

/-- CoordinationGame.play: dictionary lookup in its payoff matrix. -/
def play (g : CoordinationGame) (action1 action2 : String) :
    Option (ℚ × ℚ) :=
  if action1 = "A" ∧ action2 = "A" then some (g.high_payoff, g.high_payoff)
  else if action1 = "A" ∧ action2 = "B" then some (g.mismatch, g.mismatch)
  else if action1 = "B" ∧ action2 = "A" then some (g.mismatch, g.mismatch)
  else if action1 = "B" ∧ action2 = "B" then some (g.low_payoff, g.low_payoff)
  else none

/-- CoordinationGame.get_actions. -/
def get_actions : List String := ["A", "B"]

end CoordinationGame

/-! ### Association lists modelling Python dictionaries -/

/-- Lookup in an association list (Python dict read without default). -/
def alookup {α β : Type} [DecidableEq α] (k : α) : List (α × β) → Option β
  | [] => none
  | (k₁, v) :: rest => if k = k₁ then some v else alookup k rest

/-- Write to an association list with Python dict semantics: an existing key
is updated in place, a fresh key is appended at the end. -/
def aset {α β : Type} [DecidableEq α] (l : List (α × β)) (k : α) (v : β) :
    List (α × β) :=
  match l with
  | [] => [(k, v)]
  | (k₁, v₁) :: rest =>
      if k₁ = k then (k, v) :: rest else (k₁, v₁) :: aset rest k v

/-- Maximum of a nonempty list of rationals (Python max of dict values);
returns the head-seeded fold, 0 on the empty list (never used there by the
source, which guards with a truthiness test). -/
def listMax : List ℚ → ℚ
  | [] => 0
  | x :: xs => xs.foldl max x

/-! ### Agent base class (agent/base_agent.py) -/

/-- One entry of BaseAgent.memory, appended by BaseAgent.update. -/
structure MemoryRecord where
  my_action : String
  opponent_action : String
  payoff : ℚ
  round : ℕ
deriving DecidableEq

/-- Append to a collections.deque with maxlen: the oldest entries are
evicted from the left so that at most maxlen entries remain (a deque with
maxlen 0 stays empty). -/
def pushMemory (maxlen : ℕ) (mem : List MemoryRecord) (rec : MemoryRecord) :
    List MemoryRecord :=
  let m := mem ++ [rec]
  m.drop (m.length - maxlen)

/-- The mutable fields every agent inherits from BaseAgent. -/
structure BaseState where
  memory : List MemoryRecord
  total_payoff : ℚ
  round_count : ℕ
deriving DecidableEq

namespace BaseState

/-- Fields as set by the BaseAgent constructor. -/
def init : BaseState := ⟨[], 0, 0⟩

/-- BaseAgent.update: append a memory record, accumulate the payoff,
increment the round counter.  maxlen is the memory_length the subclass
passed to the constructor. -/
def update (maxlen : ℕ) (s : BaseState) (my opp : String) (p : ℚ) :
    BaseState :=
  ⟨pushMemory maxlen s.memory ⟨my, opp, p, s.round_count⟩,
   s.total_payoff + p, s.round_count + 1⟩

/-- BaseAgent.reset: clear memory, zero the payoff total and round count. -/
def reset (_ : BaseState) : BaseState := ⟨[], 0, 0⟩

/-- BaseAgent.get_last_opponent_action: the opponent action of the last
memory record, when one exists. -/
def last_opponent_action (s : BaseState) : Option String :=
  s.memory.getLast?.map (·.opponent_action)

end BaseState

/-! ### Static agents (agent/simple_agent.py) -/

/-- AlwaysCooperate.choose_action. -/
def AlwaysCooperate.choose_action (game_type : String) : String :=
  if game_type = "PD" then "C"
  else if game_type = "COORD" then "A"
  else "C"

/-- AlwaysDefect.choose_action. -/
def AlwaysDefect.choose_action (game_type : String) : String :=
  if game_type = "PD" then "D"
  else if game_type = "COORD" then "B"
  else "D"

/-- RandomAgent.choose_action, with the draw of random.random() passed in
as the rational u: the agent cooperates when u < coop_prob. -/
def RandomAgent.choose_action (coop_prob : ℚ) (game_type : String)
    (u : ℚ) : String :=
  if u < coop_prob then
    if game_type = "PD" then "C" else "A"
  else
    if game_type = "PD" then "D" else "B"

/-! ### Reactive agents (agent/med_agent.py) -/

namespace TitForTat

/-- TitForTat.choose_action: cooperate with no history, otherwise replay
the last opponent action (memory_length is 1). -/
def choose_action (s : BaseState) (game_type : String) : String :=
  match s.last_opponent_action with
  | none => if game_type = "PD" then "C" else "A"
  | some a => a

/-- TitForTat.update is the inherited BaseAgent.update with maxlen 1. -/
def update (s : BaseState) (my opp : String) (p : ℚ) : BaseState :=
  s.update 1 my opp p

end TitForTat

/-- Pavlov (win-stay, lose-shift): base fields plus the configured
threshold and the last_action attribute (None at construction). -/
structure Pavlov where
  base : BaseState
  threshold : ℚ
  last_action : Option String
deriving DecidableEq

namespace Pavlov

/-- The default value of the threshold constructor argument. -/
def defaultThreshold : ℚ := 2

/-- Pavlov constructor with an explicit threshold. -/
def init (threshold : ℚ) : Pavlov := ⟨BaseState.init, threshold, none⟩

/-- Pavlov.choose_action.  The method mutates last_action in the first
round and in the lose-shift branch, so it returns the new state as well.
In the win-stay branch the source returns self.last_action, which is None
when no update has ever run; the Option result models that. -/
def choose_action (s : Pavlov) (game_type : String) : Option String × Pavlov :=
  match s.base.memory with
  | [] =>
      let a := if game_type = "PD" then "C" else "A"
      (some a, { s with last_action := some a })
  | _ :: _ =>
      let last_payoff := (s.base.memory.getLast?.map (·.payoff)).getD 0
      if last_payoff ≥ s.threshold then
        (s.last_action, s)
      else
        let a :=
          if game_type = "PD" then
            if s.last_action = some "C" then "D" else "C"
          else
            if s.last_action = some "A" then "B" else "A"
        (some a, { s with last_action := some a })

/-- Pavlov.update: the inherited update (maxlen 1) followed by recording
the action actually played as last_action. -/
def update (s : Pavlov) (my opp : String) (p : ℚ) : Pavlov :=
  { s with base := s.base.update 1 my opp p, last_action := some my }

end Pavlov

/-- GrimTrigger: base fields plus the one-way triggered flag. -/
structure GrimTrigger where
  base : BaseState
  triggered : Bool
deriving DecidableEq

namespace GrimTrigger

/-- GrimTrigger constructor. -/
def init : GrimTrigger := ⟨BaseState.init, false⟩

/-- GrimTrigger.choose_action: defect symbol when triggered, cooperate
symbol otherwise. -/
def choose_action (s : GrimTrigger) (game_type : String) : String :=
  if s.triggered then
    if game_type = "PD" then "D" else "B"
  else
    if game_type = "PD" then "C" else "A"

/-- GrimTrigger.update: the inherited update (maxlen 100), then the flag
is set when the opponent action is one of the defect symbols D, B. -/
def update (s : GrimTrigger) (my opp : String) (p : ℚ) : GrimTrigger :=
  { base := s.base.update 100 my opp p,
    triggered := if opp = "D" ∨ opp = "B" then true else s.triggered }

/-- GrimTrigger.reset: the inherited reset, then the flag is cleared. -/
def reset (s : GrimTrigger) : GrimTrigger := ⟨s.base.reset, false⟩

end GrimTrigger

/-- One state-mutating call the external driver can issue to an agent
(choose_action of GrimTrigger reads but never writes the state, so a
sequence of driver calls mutates a GrimTrigger through these two). -/
inductive AgentOp where
  | upd (my opp : String) (p : ℚ)
  | reset
deriving DecidableEq

namespace GrimTrigger

/-- Apply one driver call to a GrimTrigger. -/
def apply_op (s : GrimTrigger) : AgentOp → GrimTrigger
  | .upd my opp p => s.update my opp p
  | .reset => s.reset

/-- Apply a sequence of driver calls, oldest first. -/
def run (s : GrimTrigger) (ops : List AgentOp) : GrimTrigger :=
  ops.foldl apply_op s

end GrimTrigger

/-! ### Adaptive agents (agent/adv_agent.py) -/

/-- The nested defaultdict q_table: outer keys are states (opponent last
action or the string init), inner keys are own actions. -/
abbrev QTable := List (String × List (String × ℚ))

/-- The value stored at a (state, action) pair, none when absent. -/
def qlookup (q : QTable) (s a : String) : Option ℚ :=
  (alookup s q).bind fun row => alookup a row

/-- QLearningAgent: base fields plus alpha, gamma, epsilon and the table. -/
structure QLearningAgent where
  base : BaseState
  alpha : ℚ
  gamma : ℚ
  epsilon : ℚ
  q_table : QTable
deriving DecidableEq

namespace QLearningAgent

/-- QLearningAgent constructor with explicit hyperparameters (Python
defaults are 1/10, 19/20, 1/10). -/
def init (alpha gamma epsilon : ℚ) : QLearningAgent :=
  ⟨BaseState.init, alpha, gamma, epsilon, []⟩

/-- QLearningAgent._get_state: the last opponent action, or init. -/
def get_state (ag : QLearningAgent) : String :=
  ag.base.last_opponent_action.getD "init"

/-- The greedy candidate set of QLearningAgent.choose_action: the actions
whose defaultdict-read value at the current state attains the maximum
(random.choice then picks among them). -/
def greedy_actions (ag : QLearningAgent) (game_type : String) :
    List String :=
  let state := ag.get_state
  let actions := if game_type = "PD" then ["C", "D"] else ["A", "B"]
  let q_values := actions.map fun a =>
    (a, (alookup a ((alookup state ag.q_table).getD [])).getD 0)
  let max_q := listMax (q_values.map Prod.snd)
  (q_values.filter fun kv => kv.2 = max_q).map Prod.fst

/-- The list random.choice draws the action from in
QLearningAgent.choose_action: the full alphabet on an exploration draw
(probability epsilon), the greedy maximisers otherwise. -/
def action_candidates (ag : QLearningAgent) (game_type : String)
    (explore : Bool) : List String :=
  if explore then (if game_type = "PD" then ["C", "D"] else ["A", "B"])
  else ag.greedy_actions game_type

/-- The q_table mutation the body of QLearningAgent.update performs.
Reading q_table[old_state][my_action] on the nested defaultdict inserts
a zero entry when absent (row₁); the read of q_table[new_state] inserts
an empty inner dict when absent (q₂), and its truthiness test sees the
zero inserted by the first read when new_state equals old_state.
max_next_q is the maximum of the inner dict values when the inner dict
is nonempty, else 0. -/
def qTableUpdate (alpha gamma : ℚ) (q : QTable)
    (old_state my new_state : String) (p : ℚ) : QTable :=
  let row₀ := (alookup old_state q).getD []
  let old_q := (alookup my row₀).getD 0
  let row₁ := if (alookup my row₀).isSome then row₀ else aset row₀ my 0
  let q₁ := aset q old_state row₁
  let rowN := (alookup new_state q₁).getD []
  let q₂ := if (alookup new_state q₁).isSome then q₁
            else aset q₁ new_state []
  let max_next_q := if rowN = [] then 0 else listMax (rowN.map Prod.snd)
  let new_q := old_q + alpha * (p + gamma * max_next_q - old_q)
  let rowFinal := (alookup old_state q₂).getD []
  aset q₂ old_state (aset rowFinal my new_q)

/-- QLearningAgent.update: old_state is read from memory before the
inherited update appends the new record; then the q_table is mutated by
the Q-learning rule with new_state the opponent action just observed. -/
def update (ag : QLearningAgent) (my opp : String) (p : ℚ) :
    QLearningAgent :=
  { ag with
      base := ag.base.update 50 my opp p,
      q_table := (qTableUpdate ag.alpha ag.gamma ag.q_table
        ag.get_state my opp p) }

/-- QLearningAgent.reset: only the inherited reset runs; the line clearing
the q_table is commented out in the source. -/
def reset (ag : QLearningAgent) : QLearningAgent :=
  { ag with base := ag.base.reset }

end QLearningAgent

/-- FictitiousPlay: base fields plus the defaultdict of opponent action
counts. -/
structure FictitiousPlay where
  base : BaseState
  opponent_action_counts : List (String × ℕ)
deriving DecidableEq

namespace FictitiousPlay

/-- FictitiousPlay constructor. -/
def init : FictitiousPlay := ⟨BaseState.init, []⟩

/-- Sum of the count dict values. -/
def countsTotal (ag : FictitiousPlay) : ℕ :=
  (ag.opponent_action_counts.map Prod.snd).sum

/-- FictitiousPlay._get_opponent_probability. -/
def get_opponent_probability (ag : FictitiousPlay) (action : String) : ℚ :=
  let total := ag.countsTotal
  if total = 0 then 1 / 2
  else ((alookup action ag.opponent_action_counts).getD 0 : ℕ) / (total : ℚ)

/-- FictitiousPlay.choose_action.  With fewer than 2 observed opponent
actions it falls back to the cooperative symbol; in the PD branch it
compares the expected payoffs 3p and 5p + (1-p) written with the default
payoff constants; in the other branch it compares 4p and 2(1-p). -/
def choose_action (ag : FictitiousPlay) (game_type : String) : String :=
  if ag.countsTotal < 2 then
    if game_type = "PD" then "C" else "A"
  else if game_type = "PD" then
    let p_coop := ag.get_opponent_probability "C"
    let e_cooperate := 3 * p_coop + 0 * (1 - p_coop)
    let e_defect := 5 * p_coop + 1 * (1 - p_coop)
    if e_cooperate ≥ e_defect then "C" else "D"
  else
    let p_a := ag.get_opponent_probability "A"
    let e_a := 4 * p_a
    let e_b := 2 * (1 - p_a)
    if e_a ≥ e_b then "A" else "B"

/-- FictitiousPlay.update: the inherited update (maxlen 100), then the
count of the observed opponent action is incremented. -/
def update (ag : FictitiousPlay) (my opp : String) (p : ℚ) :
    FictitiousPlay :=
  ⟨ag.base.update 100 my opp p,
   aset ag.opponent_action_counts opp
     (((alookup opp ag.opponent_action_counts).getD 0) + 1)⟩

/-- FictitiousPlay.reset: the inherited reset, then the source explicitly
clears opponent_action_counts. -/
def reset (ag : FictitiousPlay) : FictitiousPlay := ⟨ag.base.reset, []⟩

end FictitiousPlay

/-! ### AgentFactory (agent/agent_factory.py)

An agent, for the factory claims, is the constructor call the factory
performs: the strategy class picked from the registry together with the
id and the constructor parameters (explicit or default) it received. -/

/-- A freshly constructed agent: one variant per registry class, carrying
the id and every constructor parameter beyond it. -/
inductive Agent where
  | allC (id : ℕ)
  | allD (id : ℕ)
  | random (id : ℕ) (coop_probability : ℚ)
  | tft (id : ℕ)
  | pavlov (id : ℕ) (threshold : ℚ)
  | grim (id : ℕ)
  | qlearn (id : ℕ) (learning_rate discount_factor epsilon : ℚ)
  | fictitious (id : ℕ)
deriving DecidableEq

namespace Agent

/-- The id the agent was constructed with. -/
def aid : Agent → ℕ
  | allC i => i
  | allD i => i
  | random i _ => i
  | tft i => i
  | pavlov i _ => i
  | grim i => i
  | qlearn i _ _ _ => i
  | fictitious i => i

/-- The registry key of the class the agent was constructed from. -/
def strategy_key : Agent → String
  | allC _ => "AllC"
  | allD _ => "AllD"
  | random _ _ => "Random"
  | tft _ => "TFT"
  | pavlov _ _ => "Pavlov"
  | grim _ => "Grim"
  | qlearn _ _ _ _ => "Q-Learn"
  | fictitious _ => "Fictitious"

/-- The agent carries exactly the Python constructor defaults of its
class: cooperation probability 1/2 for Random, threshold 2 for Pavlov,
learning rate 1/10, discount factor 19/20 and epsilon 1/10 for the
Q-learner; the remaining classes have no parameter beyond the id. -/
def has_default_params : Agent → Prop
  | random _ p => p = 1 / 2
  | pavlov _ th => th = 2
  | qlearn _ lr df ep => lr = 1 / 10 ∧ df = 19 / 20 ∧ ep = 1 / 10
  | _ => True

end Agent

/-- The keyword arguments the factory can forward to a constructor, each
absent (none) unless the caller supplied it.  A supplied keyword that the
chosen constructor does not accept would be a TypeError in Python; no
claim exercises that case and it is not modelled. -/
structure Kwargs where
  coop_probability : Option ℚ := none
  threshold : Option ℚ := none
  learning_rate : Option ℚ := none
  discount_factor : Option ℚ := none
  epsilon : Option ℚ := none
deriving DecidableEq

/-- Kwargs with nothing supplied, as in a bare create(type, id) call. -/
def Kwargs.empty : Kwargs := ⟨none, none, none, none, none⟩

namespace AgentFactory

/-- The keys of the AGENT_TYPES registry, in declaration order. -/
def AGENT_TYPES : List String :=
  ["AllC", "AllD", "Random", "TFT", "Pavlov", "Grim", "Q-Learn",
   "Fictitious"]

/-- AgentFactory.create: an unknown strategy identifier raises ValueError
(modelled as none); otherwise the registry class is constructed with the
id and the forwarded keyword arguments, absent ones taking the Python
constructor defaults. -/
def create (agent_type : String) (agent_id : ℕ) (kw : Kwargs) :
    Option Agent :=
  if agent_type = "AllC" then some (.allC agent_id)
  else if agent_type = "AllD" then some (.allD agent_id)
  else if agent_type = "Random" then
    some (.random agent_id (kw.coop_probability.getD (1 / 2)))
  else if agent_type = "TFT" then some (.tft agent_id)
  else if agent_type = "Pavlov" then
    some (.pavlov agent_id (kw.threshold.getD 2))
  else if agent_type = "Grim" then some (.grim agent_id)
  else if agent_type = "Q-Learn" then
    some (.qlearn agent_id (kw.learning_rate.getD (1 / 10))
      (kw.discount_factor.getD (19 / 20)) (kw.epsilon.getD (1 / 10)))
  else if agent_type = "Fictitious" then some (.fictitious agent_id)
  else none

/-- The inner loop of create_mixed_population: construct count agents of
one type with consecutive ids from current_id, each by a bare create call
with no keyword arguments. -/
def createRun (agent_type : String) : ℕ → ℕ → Option (List Agent)
  | 0, _ => some []
  | count + 1, current_id =>
      (create agent_type current_id Kwargs.empty).bind fun a =>
        (createRun agent_type count (current_id + 1)).bind fun rest =>
          some (a :: rest)

/-- AgentFactory.create_mixed_population over the ordered composition
mapping: groups are produced in mapping iteration order, ids increase by
one per agent starting at the given start id; an unknown type anywhere
makes the whole call raise (none). -/
def create_mixed_population :
    List (String × ℕ) → ℕ → Option (List Agent)
  | [], _ => some []
  | (agent_type, count) :: rest, current_id =>
      (createRun agent_type count current_id).bind fun grp =>
        (create_mixed_population rest (current_id + count)).bind fun others =>
          some (grp ++ others)

/-- The list comprehension of create_population: one create call per id,
in order, keyword arguments forwarded to every call; a failing create
makes the whole comprehension raise. -/
def createSeq (agent_type : String) (kw : Kwargs) :
    List ℕ → Option (List Agent)
  | [] => some []
  | i :: rest =>
      (create agent_type i kw).bind fun a =>
        (createSeq agent_type kw rest).bind fun l =>
          some (a :: l)

/-- AgentFactory.create_population: n agents of one type with ids 0..n-1,
keyword arguments forwarded to every constructor call. -/
def create_population (agent_type : String) (n : ℕ) (kw : Kwargs) :
    Option (List Agent) :=
  createSeq agent_type kw (List.range n)

end AgentFactory

/-! ### Comparison definitions taken from the wording of the spec -/

/-- The other symbol of the two-symbol alphabet of the game (the claim
about win-stay-lose-shift speaks of the alphabet complement of the
previous own action; on actions inside the alphabet this is it). -/
def alphabetComplement (game_type a : String) : String :=
  if game_type = "PD" then (if a = "C" then "D" else "C")
  else (if a = "A" then "B" else "A")

/-- The max-next term as the claim about the tabular learner describes
it: the maximum value stored in the table under state s, zero when no
value is stored there. -/
def specMaxNext (q : QTable) (s : String) : ℚ :=
  if (alookup s q).getD [] = [] then 0
  else listMax (((alookup s q).getD []).map Prod.snd)

/-- The best response the claim about the frequency-based responder
describes, computed from the exact payoff parameters the
PrisonersDilemma game exposes: against an opponent cooperating with
probability p the expected payoff of C is R p + S (1-p) and of D is
T p + P (1-p); ties go to the first, cooperative action. -/
def specBestResponsePD (g : PrisonersDilemma) (p : ℚ) : String :=
  if g.R * p + g.S * (1 - p) ≥ g.T * p + g.P * (1 - p) then "C" else "D"

/-- The action alphabet the matrix game of a game-type token declares
through its get_actions method. -/
def declaredActions (game_type : String) : List String :=
  if game_type = "PD" then PrisonersDilemma.get_actions
  else CoordinationGame.get_actions

/-- Total number of agents a composition mapping asks for. -/
def totalCount (composition : List (String × ℕ)) : ℕ :=
  (composition.map Prod.snd).sum

/-! ### Theorems for the claims -/

theorem range'_add_append (s m n : ℕ) :
    List.range' s (m + n) = List.range' s m ++ List.range' (s + m) n := by
  induction m generalizing s with
  | zero => simp
  | succ k ih =>
      have h1 : k + 1 + n = (k + n) + 1 := by omega
      have h2 : s + 1 + k = s + (k + 1) := by omega
      rw [h1, List.range'_succ, List.range'_succ, ih (s + 1), h2,
        List.cons_append]

theorem create_empty_of_mem (t : String)
    (h : t ∈ AgentFactory.AGENT_TYPES) (i : ℕ) :
    ∃ a : Agent, AgentFactory.create t i Kwargs.empty = some a ∧
      a.aid = i ∧ a.strategy_key = t ∧ a.has_default_params := by
  simp only [AgentFactory.AGENT_TYPES, List.mem_cons,
    List.not_mem_nil, or_false] at h
  rcases h with h | h | h | h | h | h | h | h <;> subst h <;>
    refine ⟨_, rfl, rfl, rfl, ?_⟩ <;>
    simp [Agent.has_default_params, Kwargs.empty]

theorem createRun_of_mem (t : String)
    (h : t ∈ AgentFactory.AGENT_TYPES) :
    ∀ count current_id : ℕ, ∃ l : List Agent,
      AgentFactory.createRun t count current_id = some l ∧
      l.map Agent.aid = List.range' current_id count ∧
      l.map Agent.strategy_key = List.replicate count t ∧
      ∀ a ∈ l, a.has_default_params := by
  intro count
  induction count with
  | zero => exact fun i => ⟨[], rfl, by simp, by simp, by simp⟩
  | succ n ih =>
      intro i
      obtain ⟨a, ha, haid, hkey, hdef⟩ := create_empty_of_mem t h i
      obtain ⟨l, hl, hid, hk, hd⟩ := ih (i + 1)
      refine ⟨a :: l, ?_, ?_, ?_, ?_⟩
      · simp [AgentFactory.createRun, ha, hl]
      · simp [hid, haid, List.range'_succ]
      · simp [hk, hkey, List.replicate_succ]
      · intro x hx
        rcases List.mem_cons.mp hx with hx | hx
        · exact hx ▸ hdef
        · exact hd x hx

/-- Claim C9: create fails exactly on identifiers outside the closed
registry, and create_mixed_population on a composition of registered
identifiers yields the groups in mapping order with strictly increasing
consecutive ids starting at the given start id. -/
theorem claim_C9_factory :
    (∀ (t : String) (i : ℕ) (kw : Kwargs),
      AgentFactory.create t i kw = none ↔ t ∉ AgentFactory.AGENT_TYPES) ∧
    (∀ (composition : List (String × ℕ)) (start_id : ℕ),
      (∀ p ∈ composition, p.1 ∈ AgentFactory.AGENT_TYPES) →
      ∃ l : List Agent,
        AgentFactory.create_mixed_population composition start_id = some l ∧
        l.map Agent.aid = List.range' start_id (totalCount composition) ∧
        l.map Agent.strategy_key =
          (composition.map fun p => List.replicate p.2 p.1).flatten) := by
  constructor
  · intro t i kw
    unfold AgentFactory.create AgentFactory.AGENT_TYPES
    split_ifs <;> simp_all
  · intro comp
    induction comp with
    | nil =>
        intro s _
        exact ⟨[], rfl, by simp [totalCount], by simp⟩
    | cons hd tl ih =>
        intro s h
        obtain ⟨t, count⟩ := hd
        obtain ⟨l₁, h₁, hid₁, hk₁, _⟩ :=
          createRun_of_mem t (h (t, count) (by simp)) count s
        obtain ⟨l₂, h₂, hid₂, hk₂⟩ :=
          ih (s + count) (fun p hp => h p (by simp [hp]))
        refine ⟨l₁ ++ l₂, ?_, ?_, ?_⟩
        · simp [AgentFactory.create_mixed_population, h₁, h₂]
        · have ht : totalCount ((t, count) :: tl) =
              count + totalCount tl := by simp [totalCount]
          rw [List.map_append, hid₁, hid₂, ht, range'_add_append]
        · simp [hk₁, hk₂]

/-- Witness for claim C9: an unknown identifier fails, and the
composition TFT:2, AllD:1 with start id 10 yields three agents with ids
10, 11, 12 grouped as TFT, TFT, AllD. -/
theorem claim_C9_witness :
    AgentFactory.create "Bogus" 0 Kwargs.empty = none ∧
    ∃ l : List Agent,
      AgentFactory.create_mixed_population [("TFT", 2), ("AllD", 1)] 10 =
        some l ∧
      l.map Agent.aid = [10, 11, 12] ∧
      l.map Agent.strategy_key = ["TFT", "TFT", "AllD"] := by
  constructor
  · exact (claim_C9_factory.1 "Bogus" 0 Kwargs.empty).mpr (by decide)
  · obtain ⟨l, h1, h2, h3⟩ :=
      claim_C9_factory.2 [("TFT", 2), ("AllD", 1)] 10 (by decide)
    exact ⟨l, h1, by rw [h2]; rfl, by rw [h3]; rfl⟩

theorem create_empty_defaults (t : String) (i : ℕ) (a : Agent)
    (h : AgentFactory.create t i Kwargs.empty = some a) :
    a.has_default_params := by
  unfold AgentFactory.create at h
  split_ifs at h <;> cases h <;>
    simp [Agent.has_default_params, Kwargs.empty]

theorem createRun_defaults (t : String) :
    ∀ (count i : ℕ) (l : List Agent),
      AgentFactory.createRun t count i = some l →
      ∀ a ∈ l, a.has_default_params := by
  intro count
  induction count with
  | zero =>
      intro i l h a ha
      cases h
      simp at ha
  | succ n ih =>
      intro i l h a ha
      simp only [AgentFactory.createRun, Option.bind_eq_some,
        Option.pure_def, Option.some.injEq] at h
      obtain ⟨a₀, ha₀, l₁, hl₁, rfl⟩ := h
      rcases List.mem_cons.mp ha with rfl | hx
      · exact create_empty_defaults t i a ha₀
      · exact ih (i + 1) l₁ hl₁ a hx

theorem create_mixed_defaults :
    ∀ (composition : List (String × ℕ)) (start_id : ℕ) (l : List Agent),
      AgentFactory.create_mixed_population composition start_id = some l →
      ∀ a ∈ l, a.has_default_params := by
  intro comp
  induction comp with
  | nil =>
      intro s l h a ha
      cases h
      simp at ha
  | cons hd tl ih =>
      intro s l h a ha
      obtain ⟨t, count⟩ := hd
      simp only [AgentFactory.create_mixed_population, Option.bind_eq_some,
        Option.pure_def, Option.some.injEq] at h
      obtain ⟨l₁, hl₁, l₂, hl₂, rfl⟩ := h
      rcases List.mem_append.mp ha with hx | hx
      · exact createRun_defaults t count s l₁ hl₁ a hx
      · exact ih (s + count) l₂ hl₂ a hx

/-- Claim C10: every agent of a mixed population carries the Python
constructor defaults of its class, while create and create_population
forward supplied keyword parameters to the constructor. -/
theorem claim_C10_mixed_population_defaults :
    (∀ (composition : List (String × ℕ)) (start_id : ℕ) (l : List Agent),
      AgentFactory.create_mixed_population composition start_id = some l →
      ∀ a ∈ l, a.has_default_params) ∧
    (∀ (i : ℕ) (p : ℚ),
      AgentFactory.create "Random" i ⟨some p, none, none, none, none⟩ =
        some (.random i p)) ∧
    (∀ (i : ℕ) (th : ℚ),
      AgentFactory.create "Pavlov" i ⟨none, some th, none, none, none⟩ =
        some (.pavlov i th)) ∧
    (∀ (i : ℕ) (lr df ep : ℚ),
      AgentFactory.create "Q-Learn" i ⟨none, none, some lr, some df, some ep⟩ =
        some (.qlearn i lr df ep)) ∧
    (∀ (n : ℕ) (p : ℚ),
      AgentFactory.create_population "Random" n
          ⟨some p, none, none, none, none⟩ =
        some ((List.range n).map fun i => .random i p)) := by
  refine ⟨create_mixed_defaults, fun i p => rfl, fun i th => rfl,
    fun i lr df ep => rfl, fun n p => ?_⟩
  unfold AgentFactory.create_population
  have hgen : ∀ ids : List ℕ,
      AgentFactory.createSeq "Random" ⟨some p, none, none, none, none⟩ ids =
        some (ids.map fun i => Agent.random i p) := by
    intro ids
    induction ids with
    | nil => rfl
    | cons j rest ih =>
        simp [AgentFactory.createSeq, AgentFactory.create, ih]
  exact hgen (List.range n)

/-- Witness for claim C10: a one-agent mixed population carries the
default cooperation probability 1/2, while a direct create call with an
explicit probability 3/10 forwards it. -/
theorem claim_C10_witness :
    Agent.has_default_params (Agent.random 0 (1 / 2)) ∧
    AgentFactory.create "Random" 5 ⟨some (3 / 10), none, none, none, none⟩ =
      some (Agent.random 5 (3 / 10)) := by
  constructor
  · exact claim_C10_mixed_population_defaults.1 [("Random", 1)] 0
      [Agent.random 0 (1 / 2)] rfl _ (by simp)
  · exact claim_C10_mixed_population_defaults.2.1 5 (3 / 10)

/-- Claim C7: constructing a PrisonersDilemma fails exactly when the
parameters violate T > R > P > S, and a successful construction plays CC
to (R,R), CD to (S,T), DC to (T,S) and DD to (P,P). -/
theorem claim_C7_pd_construction_and_play :
    ∀ R S T P : ℚ,
      (PrisonersDilemma.mk? R S T P = none ↔ ¬(T > R ∧ R > P ∧ P > S)) ∧
      (∀ g, PrisonersDilemma.mk? R S T P = some g →
        g.play "C" "C" = some (R, R) ∧ g.play "C" "D" = some (S, T) ∧
        g.play "D" "C" = some (T, S) ∧ g.play "D" "D" = some (P, P)) := by
  intro R S T P
  constructor
  · unfold PrisonersDilemma.mk?
    split <;> simp_all
  · intro g hg
    unfold PrisonersDilemma.mk? at hg
    split at hg
    · cases hg
      refine ⟨?_, ?_, ?_, ?_⟩ <;> simp [PrisonersDilemma.play]
    · cases hg

/-- Witness for claim C7 at the default parameters R=3, S=0, T=5, P=1. -/
theorem claim_C7_witness :
    PrisonersDilemma.play ⟨3, 0, 5, 1⟩ "C" "C" = some (3, 3) ∧
    PrisonersDilemma.play ⟨3, 0, 5, 1⟩ "C" "D" = some (0, 5) ∧
    PrisonersDilemma.mk? 0 0 0 0 = none := by
  have h := (claim_C7_pd_construction_and_play 3 0 5 1).2 ⟨3, 0, 5, 1⟩
    (by decide)
  exact ⟨h.1, h.2.1,
    (claim_C7_pd_construction_and_play 0 0 0 0).1.mpr (by decide)⟩

/-- Claim C8, counterexample to the claim as stated: with n = 0 players
the empty contribution vector has length exactly n, yet play fails
(ZeroDivisionError in the source) instead of returning the payoff
vector. -/
theorem claim_C8_counterexample :
    ([] : List ℚ).length = (⟨0, 2, 10⟩ : PublicGoodsGame).n ∧
    PublicGoodsGame.play ⟨0, 2, 10⟩ [] = none := by decide

/-- Claim C8 (amended with n ≥ 1): play on a contribution vector of the
wrong length fails, and for n ≥ 1 play on a vector of length n returns the
vector whose i-th entry is (endowment - c_i) + r * sum(c) / n. -/
theorem claim_C8_pgg_play :
    ∀ (g : PublicGoodsGame) (c : List ℚ),
      (c.length ≠ g.n → g.play c = none) ∧
      (c.length = g.n → 1 ≤ g.n →
        (g.play c).isSome ∧
        ∀ i : ℕ, List.get? ((g.play c).getD []) i =
          (List.get? c i).map fun ci =>
            (g.endowment - ci) + g.r * c.sum / (g.n : ℚ)) := by
  intro g c
  constructor
  · intro h
    simp [PublicGoodsGame.play, h]
  · intro hlen hn
    have hnz : g.n ≠ 0 := by omega
    refine ⟨by simp [PublicGoodsGame.play, hlen, hnz], fun i => ?_⟩
    simp [PublicGoodsGame.play, hlen, hnz, List.get?_map]

/-- Witness for claim C8: n=4, multiplier 2, endowment 10, contributions
[10,10,0,0]; entry 0 is 10 and entry 2 is 20 (full payoff vector
[10,10,20,20]). -/
theorem claim_C8_witness :
    (PublicGoodsGame.play ⟨4, 2, 10⟩ [10, 10, 0, 0]).isSome ∧
    List.get? ((PublicGoodsGame.play ⟨4, 2, 10⟩ [10, 10, 0, 0]).getD []) 0 =
      some 10 ∧
    List.get? ((PublicGoodsGame.play ⟨4, 2, 10⟩ [10, 10, 0, 0]).getD []) 2 =
      some 20 := by
  have h := (claim_C8_pgg_play ⟨4, 2, 10⟩ [10, 10, 0, 0]).2 (by decide)
    (by decide)
  refine ⟨h.1, ?_, ?_⟩
  · rw [h.2 0]
    norm_num
  · rw [h.2 2]
    norm_num

/-- Claim C4, counterexample to the claim as stated: after one update the
frequency-based responder holds count C=1; reset clears the counts, so
the learned state is not preserved across reset. -/
theorem claim_C4_counterexample :
    ((FictitiousPlay.init.update "C" "C" 3).reset).opponent_action_counts ≠
      (FictitiousPlay.init.update "C" "C" 3).opponent_action_counts := by
  decide

/-- Claim C4 (amended): reset returns memory, total payoff and round count
to their initial values for every agent state; the Q-learner keeps its
value table (and hyperparameters), but the frequency-based responder
clears its opponent-action counts. -/
theorem claim_C4_reset_amended :
    (∀ ag : QLearningAgent, ag.reset.base = BaseState.init ∧
      ag.reset.q_table = ag.q_table ∧ ag.reset.alpha = ag.alpha ∧
      ag.reset.gamma = ag.gamma ∧ ag.reset.epsilon = ag.epsilon) ∧
    (∀ ag : FictitiousPlay, ag.reset.base = BaseState.init ∧
      ag.reset.opponent_action_counts = []) ∧
    (∀ s : GrimTrigger, s.reset.base = BaseState.init) ∧
    (∀ s : BaseState, s.reset = BaseState.init) := by
  refine ⟨fun ag => ?_, fun ag => ?_, fun s => ?_, fun s => ?_⟩ <;>
    simp [QLearningAgent.reset, FictitiousPlay.reset, GrimTrigger.reset,
      BaseState.reset, BaseState.init]

/-- Claim C5: an update reporting a defect symbol D or B sets the Grim
Trigger flag; from a triggered state, any reset-free sequence of driver
calls leaves the flag set and every choose_action call returns the
defect symbol of the given game type; reset (and only reset: updates
never clear the flag, as the second part shows) returns to the
cooperating state. -/
theorem claim_C5_grim_trigger :
    (∀ (s : GrimTrigger) (my opp : String) (p : ℚ),
      opp = "D" ∨ opp = "B" → (s.update my opp p).triggered = true) ∧
    (∀ (s : GrimTrigger) (ops : List AgentOp), s.triggered = true →
      AgentOp.reset ∉ ops →
      (s.run ops).triggered = true ∧
      ∀ game_type, (s.run ops).choose_action game_type =
        (if game_type = "PD" then "D" else "B")) ∧
    (∀ s : GrimTrigger, s.reset.triggered = false) := by
  refine ⟨?_, ?_, fun s => rfl⟩
  · intro s my opp p h
    rcases h with h | h <;> simp [GrimTrigger.update, h]
  · intro s ops
    induction ops generalizing s with
    | nil =>
        intro htrig _
        exact ⟨htrig, fun g => by simp [GrimTrigger.run, List.foldl_nil,
          GrimTrigger.choose_action, htrig]⟩
    | cons op rest ih =>
        intro htrig hmem
        have hop : op ≠ AgentOp.reset := fun h => hmem (h ▸ List.mem_cons_self op rest)
        have hrest : AgentOp.reset ∉ rest := fun h => hmem (List.mem_cons_of_mem op h)
        have hstep : (s.apply_op op).triggered = true := by
          cases op with
          | upd my opp p =>
              simp only [GrimTrigger.apply_op, GrimTrigger.update]
              split <;> simp [htrig]
          | reset => exact absurd rfl hop
        have hrun : s.run (op :: rest) = (s.apply_op op).run rest := rfl
        rw [hrun]
        exact ih (s.apply_op op) hstep hrest

/-- Witness for claim C5: after the opponent defects once, two further
cooperative rounds leave Grim defecting in both game types, and a reset
returns it to cooperation. -/
theorem claim_C5_witness :
    ((GrimTrigger.init.update "C" "D" 0).run
        [AgentOp.upd "D" "C" 5, AgentOp.upd "D" "C" 5]).choose_action "PD" =
      "D" ∧
    ((GrimTrigger.init.update "C" "D" 0).run
        [AgentOp.upd "D" "C" 5, AgentOp.upd "D" "C" 5]).choose_action
      "COORD" = "B" ∧
    (GrimTrigger.init.update "C" "D" 0).reset.triggered = false := by
  have h1 := claim_C5_grim_trigger.1 GrimTrigger.init "C" "D" 0 (Or.inl rfl)
  have h2 := (claim_C5_grim_trigger.2.1 (GrimTrigger.init.update "C" "D" 0)
    [AgentOp.upd "D" "C" 5, AgentOp.upd "D" "C" 5] h1 (by decide)).2
  have h3 := claim_C5_grim_trigger.2.2 (GrimTrigger.init.update "C" "D" 0)
  exact ⟨(h2 "PD").trans (by decide), (h2 "COORD").trans (by decide), h3⟩

/-- Claim C6: the first choose_action of the win-stay-lose-shift agent
returns the cooperative symbol (and the default threshold is 2); after
an update recording action a and payoff p, the next choose_action
returns a when p is at least the threshold and the alphabet complement
of a otherwise. -/
theorem claim_C6_pavlov :
    Pavlov.defaultThreshold = 2 ∧
    (∀ (th : ℚ) (game_type : String),
      ((Pavlov.init th).choose_action game_type).1 =
        some (if game_type = "PD" then "C" else "A")) ∧
    (∀ (s : Pavlov) (my opp : String) (p : ℚ) (game_type : String),
      (s.threshold ≤ p →
        ((s.update my opp p).choose_action game_type).1 = some my) ∧
      (p < s.threshold →
        ((s.update my opp p).choose_action game_type).1 =
          some (alphabetComplement game_type my))) := by
  have hmem : ∀ (s : Pavlov) (my opp : String) (p : ℚ),
      (BaseState.update 1 s.base my opp p).memory =
        [⟨my, opp, p, s.base.round_count⟩] := by
    intro s my opp p
    simp [BaseState.update, pushMemory]
  refine ⟨rfl, fun th g => rfl, fun s my opp p g => ⟨?_, ?_⟩⟩
  · intro hp
    simp [Pavlov.choose_action, Pavlov.update, hmem s my opp p,
      ge_iff_le, hp]
  · intro hp
    have hnot : ¬ s.threshold ≤ p := not_le.mpr hp
    by_cases hg : g = "PD"
    · subst hg
      by_cases hmy : my = "C"
      · subst hmy
        simp [Pavlov.choose_action, Pavlov.update, hmem s "C" opp p,
          ge_iff_le, hnot, alphabetComplement]
      · simp [Pavlov.choose_action, Pavlov.update, hmem s my opp p,
          ge_iff_le, hnot, alphabetComplement, hmy]
    · by_cases hmy : my = "A"
      · subst hmy
        simp [Pavlov.choose_action, Pavlov.update, hmem s "A" opp p,
          ge_iff_le, hnot, alphabetComplement, hg]
      · simp [Pavlov.choose_action, Pavlov.update, hmem s my opp p,
          ge_iff_le, hnot, alphabetComplement, hg, hmy]

/-- Claim C1, counterexample to the claim as stated: in the public-goods
mode Always-Cooperate returns the string C, which is not a member of the
numeric alphabet [0, endowment] that PublicGoodsGame.get_actions
declares; and even for the PD token the claim fails without a
same-alphabet history: Tit-for-Tat holding a recorded opponent action A
replays it, outside the PD alphabet. -/
theorem claim_C1_counterexample :
    PyVal.str (AlwaysCooperate.choose_action "PG") ∉
      PublicGoodsGame.get_actions ⟨4, 2, 10⟩ ∧
    TitForTat.choose_action ⟨[⟨"A", "A", 4, 0⟩], 4, 1⟩ "PD" ∉
      PrisonersDilemma.get_actions := by
  decide

/-- Claim C1 (amended): restricted to the matrix game tokens PD and COORD
and to agent states whose recorded symbols lie in the alphabet of that
game (as produced by any single-game interaction), every registry
strategy returns an action inside the alphabet the game declares.  The
randomised choices are quantified over the draw: the uniform variate of
the Random agent, and the exploration branch plus an arbitrary member of
the candidate list for the epsilon-greedy learner. -/
theorem claim_C1_alphabet_amended :
    ∀ game_type : String, game_type = "PD" ∨ game_type = "COORD" →
      AlwaysCooperate.choose_action game_type ∈ declaredActions game_type ∧
      AlwaysDefect.choose_action game_type ∈ declaredActions game_type ∧
      (∀ coop_prob u : ℚ,
        RandomAgent.choose_action coop_prob game_type u ∈
          declaredActions game_type) ∧
      (∀ s : BaseState,
        (∀ a, s.last_opponent_action = some a →
          a ∈ declaredActions game_type) →
        TitForTat.choose_action s game_type ∈ declaredActions game_type) ∧
      (∀ s : Pavlov,
        (s.base.memory ≠ [] →
          ∃ a, s.last_action = some a ∧ a ∈ declaredActions game_type) →
        ∃ a, (s.choose_action game_type).1 = some a ∧
          a ∈ declaredActions game_type) ∧
      (∀ s : GrimTrigger,
        s.choose_action game_type ∈ declaredActions game_type) ∧
      (∀ (ag : QLearningAgent) (explore : Bool) (a : String),
        a ∈ ag.action_candidates game_type explore →
        a ∈ declaredActions game_type) ∧
      (∀ ag : FictitiousPlay,
        ag.choose_action game_type ∈ declaredActions game_type) := by
  have hpav : ∀ (s : Pavlov) (game_type : String),
      game_type = "PD" ∨ game_type = "COORD" →
      (s.base.memory ≠ [] →
        ∃ a, s.last_action = some a ∧ a ∈ declaredActions game_type) →
      ∃ a, (s.choose_action game_type).1 = some a ∧
        a ∈ declaredActions game_type := by
    intro s g hg hs
    rcases hm : s.base.memory with _ | ⟨head, tail⟩
    · refine ⟨if g = "PD" then "C" else "A",
        by simp [Pavlov.choose_action, hm], ?_⟩
      rcases hg with rfl | rfl <;> decide
    · by_cases hpay : ((s.base.memory.getLast?.map (·.payoff)).getD 0) ≥
          s.threshold
      · obtain ⟨a, hla, haA⟩ := hs (by simp [hm])
        exact ⟨a, by simp [Pavlov.choose_action, hm, hm ▸ hpay, hla], haA⟩
      · refine ⟨if g = "PD" then (if s.last_action = some "C" then "D"
            else "C") else (if s.last_action = some "A" then "B" else "A"),
          by simp [Pavlov.choose_action, hm, hm ▸ hpay], ?_⟩
        rcases hg with rfl | rfl
        · by_cases h : s.last_action = some "C" <;> simp [h] <;> decide
        · by_cases h : s.last_action = some "A" <;> simp [h] <;> decide
  have hgreedy : ∀ (ag : QLearningAgent) (g : String) (a : String),
      a ∈ ag.greedy_actions g →
      a ∈ (if g = "PD" then ["C", "D"] else ["A", "B"]) := by
    intro ag g a ha
    simp only [QLearningAgent.greedy_actions] at ha
    obtain ⟨b, hb, hba⟩ := List.mem_map.mp ha
    have hb₂ := (List.mem_filter.mp hb).1
    obtain ⟨x, hx, hxb⟩ := List.mem_map.mp hb₂
    subst hba
    rw [← hxb]
    exact hx
  have hq : ∀ (ag : QLearningAgent) (g : String),
      g = "PD" ∨ g = "COORD" → ∀ (explore : Bool) (a : String),
      a ∈ ag.action_candidates g explore → a ∈ declaredActions g := by
    intro ag g hg explore a ha
    have hsub : a ∈ (if g = "PD" then ["C", "D"] else ["A", "B"]) := by
      cases explore with
      | true => simpa [QLearningAgent.action_candidates] using ha
      | false =>
          exact hgreedy ag g a
            (by simpa [QLearningAgent.action_candidates] using ha)
    rcases hg with rfl | rfl <;>
      simpa [declaredActions, PrisonersDilemma.get_actions,
        CoordinationGame.get_actions] using hsub
  intro g hg
  refine ⟨?_, ?_, ?_, ?_, fun s hs => hpav s g hg hs, ?_,
    fun ag explore a ha => hq ag g hg explore a ha, ?_⟩
  · rcases hg with rfl | rfl <;> decide
  · rcases hg with rfl | rfl <;> decide
  · intro cp u
    rcases hg with rfl | rfl <;> by_cases h : u < cp <;>
      simp [RandomAgent.choose_action, h] <;> decide
  · intro s hs
    rcases hlast : s.last_opponent_action with _ | a
    · rcases hg with rfl | rfl <;>
        simp [TitForTat.choose_action, hlast] <;> decide
    · have h₂ := hs a hlast
      have h₃ : TitForTat.choose_action s g = a := by
        simp [TitForTat.choose_action, hlast]
      rwa [h₃]
  · intro s
    rcases hg with rfl | rfl <;> by_cases h : s.triggered <;>
      simp [GrimTrigger.choose_action, h] <;> decide
  · intro ag
    rcases hg with rfl | rfl <;>
      simp only [FictitiousPlay.choose_action] <;>
      split_ifs <;> first | decide | simp_all

/-- Witness for claim C1 (amended) at concrete states: a fresh
Tit-for-Tat and a Pavlov that has just played C in a PD round both stay
inside the PD alphabet. -/
theorem claim_C1_witness :
    TitForTat.choose_action BaseState.init "PD" ∈ declaredActions "PD" ∧
    ∃ a, (((Pavlov.init 2).update "C" "C" 3).choose_action "PD").1 =
        some a ∧ a ∈ declaredActions "PD" := by
  have h := claim_C1_alphabet_amended "PD" (Or.inl rfl)
  exact ⟨h.2.2.2.1 BaseState.init (by simp [BaseState.init,
      BaseState.last_opponent_action]),
    h.2.2.2.2.1 ((Pavlov.init 2).update "C" "C" 3)
      (fun _ => ⟨"C", rfl, by decide⟩)⟩

theorem alookup_aset_self {α β : Type} [DecidableEq α]
    (l : List (α × β)) (k : α) (v : β) : alookup k (aset l k v) = some v := by
  induction l with
  | nil => simp [aset, alookup]
  | cons hd tl ih =>
      obtain ⟨k₁, v₁⟩ := hd
      by_cases h : k₁ = k
      · simp [aset, alookup, h]
      · simp [aset, alookup, h, ih, Ne.symm h]

theorem alookup_aset_ne {α β : Type} [DecidableEq α]
    (l : List (α × β)) (k k₂ : α) (v : β) (h : k₂ ≠ k) :
    alookup k₂ (aset l k v) = alookup k₂ l := by
  induction l with
  | nil => simp [aset, alookup, h]
  | cons hd tl ih =>
      obtain ⟨k₁, v₁⟩ := hd
      by_cases h₁ : k₁ = k
      · subst h₁
        simp [aset, alookup, h]
      · by_cases h₂ : k₂ = k₁ <;> simp [aset, alookup, h₁, h₂, ih]

theorem qlookup_eq (q : QTable) (s a : String) :
    qlookup q s a = alookup a ((alookup s q).getD []) := by
  cases h : alookup s q <;> simp [qlookup, h, alookup]

theorem aset_append_of_none {α β : Type} [DecidableEq α]
    (l : List (α × β)) (k : α) (v : β) (h : alookup k l = none) :
    aset l k v = l ++ [(k, v)] := by
  induction l with
  | nil => simp [aset]
  | cons hd tl ih =>
      obtain ⟨k₁, v₁⟩ := hd
      by_cases hk : k = k₁
      · subst hk
        simp [alookup] at h
      · have h₂ : alookup k tl = none := by simpa [alookup, hk] using h
        simp [aset, Ne.symm hk, ih h₂]

theorem listMax_append_single (l : List ℚ) (x : ℚ) :
    listMax (l ++ [x]) = if l = [] then x else max (listMax l) x := by
  cases l with
  | nil => simp [listMax]
  | cons y ys => simp [listMax, List.foldl_append]

theorem qlookup_write_self (q : QTable) (s my : String) (v : ℚ) :
    qlookup (aset q s (aset ((alookup s q).getD []) my v)) s my =
      some v := by
  rw [qlookup_eq, alookup_aset_self, Option.getD_some, alookup_aset_self]

theorem qlookup_write_frame (q : QTable) (s my : String) (v : ℚ)
    (s₂ a₂ : String) (h : ¬(s₂ = s ∧ a₂ = my)) :
    qlookup (aset q s (aset ((alookup s q).getD []) my v)) s₂ a₂ =
      qlookup q s₂ a₂ := by
  by_cases hs : s₂ = s
  · subst hs
    have ha : a₂ ≠ my := fun hh => h ⟨rfl, hh⟩
    rw [qlookup_eq, alookup_aset_self, Option.getD_some,
      alookup_aset_ne _ _ _ _ ha, ← qlookup_eq]
  · rw [qlookup_eq, alookup_aset_ne _ _ _ _ hs, ← qlookup_eq]

theorem qlookup_aset_own_row (q : QTable) (s : String) (s₂ a₂ : String) :
    qlookup (aset q s ((alookup s q).getD [])) s₂ a₂ =
      qlookup q s₂ a₂ := by
  by_cases hs : s₂ = s
  · subst hs
    rw [qlookup_eq, alookup_aset_self, Option.getD_some, ← qlookup_eq]
  · rw [qlookup_eq, alookup_aset_ne _ _ _ _ hs, ← qlookup_eq]

theorem qlookup_aset_empty_row (q : QTable) (s₁ : String)
    (h : alookup s₁ q = none) (s₂ a₂ : String) :
    qlookup (aset q s₁ []) s₂ a₂ = qlookup q s₂ a₂ := by
  by_cases hs : s₂ = s₁
  · subst hs
    rw [qlookup_eq, alookup_aset_self, Option.getD_some, qlookup_eq, h]
    simp [alookup]
  · rw [qlookup_eq, alookup_aset_ne _ _ _ _ hs, ← qlookup_eq]

/-- The stored value at the updated pair (old_state, my) after the
Q-update, outside the corner case: it becomes
oldValue + alpha * (p + gamma * maxNext - oldValue) with maxNext the
maximum stored under new_state (zero when nothing is stored there),
exactly as the claim states. -/
theorem qTableUpdate_lookup_self_normal (alpha gamma : ℚ) (q : QTable)
    (s my opp : String) (p : ℚ)
    (h : qlookup q s my ≠ none ∨ opp ≠ s) :
    qlookup (QLearningAgent.qTableUpdate alpha gamma q s my opp p) s my =
      some ((qlookup q s my).getD 0 + alpha *
        (p + gamma * specMaxNext q opp - (qlookup q s my).getD 0)) := by
  have hql : qlookup q s my = alookup my ((alookup s q).getD []) :=
    qlookup_eq q s my
  simp only [QLearningAgent.qTableUpdate]
  rw [qlookup_write_self, hql]
  by_cases hmy : alookup my ((alookup s q).getD []) = none
  · have hopp : opp ≠ s := by
      rcases h with h | h
      · exact absurd (hql.trans hmy) h
      · exact h
    simp only [hmy, Option.isSome_none, Bool.false_eq_true, if_false,
      Option.getD_none]
    rw [alookup_aset_ne _ _ _ _ hopp]
    simp only [specMaxNext]
  · obtain ⟨v, hv⟩ := Option.ne_none_iff_exists.mp hmy
    rw [← hv]
    simp only [Option.isSome_some, if_true, Option.getD_some]
    by_cases hopp : opp = s
    · subst hopp
      rw [alookup_aset_self, Option.getD_some]
      simp only [specMaxNext]
    · rw [alookup_aset_ne _ _ _ _ hopp]
      simp only [specMaxNext]

/-- The corner case of the Q-update: when (old_state, my) holds no
stored value and new_state equals old_state, the zero entry inserted by
the defaultdict read of Q(old_state, my) participates in the maximum, so
the stored result uses max(maxNext, 0) instead of the claimed
maxNext. -/
theorem qTableUpdate_lookup_self_corner (alpha gamma : ℚ) (q : QTable)
    (s my opp : String) (p : ℚ)
    (h1 : qlookup q s my = none) (h2 : opp = s) :
    qlookup (QLearningAgent.qTableUpdate alpha gamma q s my opp p) s my =
      some (0 + alpha *
        (p + gamma * max (specMaxNext q opp) 0 - 0)) := by
  subst h2
  rw [qlookup_eq] at h1
  simp only [QLearningAgent.qTableUpdate]
  rw [qlookup_write_self]
  simp only [h1, Option.isSome_none, Bool.false_eq_true, if_false,
    Option.getD_none]
  rw [alookup_aset_self, Option.getD_some, aset_append_of_none _ _ _ h1]
  have hne : ((alookup opp q).getD [] : List (String × ℚ)) ++
      [(my, (0 : ℚ))] ≠ [] := by simp
  rw [if_neg hne, List.map_append]
  simp only [List.map_cons, List.map_nil]
  rw [listMax_append_single]
  by_cases h0 : ((alookup opp q).getD [] : List (String × ℚ)) = []
  · simp [specMaxNext, h0]
  · simp [specMaxNext, h0, List.map_eq_nil_iff]

/-- Every pair other than (old_state, my) keeps its stored value across
the Q-update (absent pairs stay absent: the empty inner dict the read of
q_table[new_state] may insert holds no action entry). -/
theorem qTableUpdate_frame (alpha gamma : ℚ) (q : QTable)
    (s my opp : String) (p : ℚ) (s₂ a₂ : String)
    (h : ¬(s₂ = s ∧ a₂ = my)) :
    qlookup (QLearningAgent.qTableUpdate alpha gamma q s my opp p) s₂ a₂ =
      qlookup q s₂ a₂ := by
  simp only [QLearningAgent.qTableUpdate]
  by_cases hmy : alookup my ((alookup s q).getD []) = none
  · simp only [hmy, Option.isSome_none, Bool.false_eq_true, if_false]
    by_cases hopp : opp = s
    · subst hopp
      rw [if_pos (by rw [alookup_aset_self]; rfl)]
      rw [qlookup_write_frame _ _ _ _ _ _ h,
        qlookup_write_frame _ _ _ _ _ _ h]
    · have hlk : alookup opp (aset q s (aset ((alookup s q).getD [])
          my 0)) = alookup opp q := alookup_aset_ne _ _ _ _ hopp
      by_cases hsome : (alookup opp q).isSome
      · rw [if_pos (by rw [hlk]; exact hsome)]
        rw [qlookup_write_frame _ _ _ _ _ _ h,
          qlookup_write_frame _ _ _ _ _ _ h]
      · have hnone : alookup opp (aset q s (aset ((alookup s q).getD [])
            my 0)) = none := by
          rw [hlk]
          exact Option.not_isSome_iff_eq_none.mp hsome
        have hnone : alookup opp (aset q s (aset ((alookup s q).getD [])
            my 0)) = none := by
          rw [hlk]
          exact Option.not_isSome_iff_eq_none.mp hsome
        rw [if_neg (by rw [hlk]; exact hsome)]
        rw [qlookup_write_frame _ _ _ _ _ _ h,
          qlookup_aset_empty_row _ _ hnone,
          qlookup_write_frame _ _ _ _ _ _ h]
  · obtain ⟨v, hv⟩ := Option.ne_none_iff_exists.mp hmy
    rw [← hv]
    simp only [Option.isSome_some, if_true]
    by_cases hopp : opp = s
    · subst hopp
      rw [if_pos (by rw [alookup_aset_self]; rfl)]
      rw [qlookup_write_frame _ _ _ _ _ _ h, qlookup_aset_own_row]
    · have hlk : alookup opp (aset q s ((alookup s q).getD [])) =
          alookup opp q := alookup_aset_ne _ _ _ _ hopp
      by_cases hsome : (alookup opp q).isSome
      · rw [if_pos (by rw [hlk]; exact hsome)]
        rw [qlookup_write_frame _ _ _ _ _ _ h, qlookup_aset_own_row]
      · have hnone : alookup opp (aset q s ((alookup s q).getD [])) =
            none := by
          rw [hlk]
          exact Option.not_isSome_iff_eq_none.mp hsome
        rw [if_neg (by rw [hlk]; exact hsome)]
        rw [qlookup_write_frame _ _ _ _ _ _ h,
          qlookup_aset_empty_row _ _ hnone, qlookup_aset_own_row]

/-- Claim C2, counterexample to the claim as stated: the agent holds the
single stored value Q(C, D) = -1, last opponent action C (so s = C), and
the pair (C, C) is unstored.  An update with action C, observed opponent
action C and payoff 0 should, per the claim, store
0 + (1/10)(0 + (19/20)(-1) - 0) = -19/200 at (C, C), the max-next term
being the stored maximum -1; the code instead stores 0, because reading
Q(C, C) on the defaultdict inserts a 0 entry under state C before the
maximum is taken. -/
theorem claim_C2_counterexample :
    (QLearningAgent.get_state ⟨⟨[⟨"C", "C", 0, 0⟩], 0, 1⟩, 1 / 10,
        19 / 20, 1 / 10, [("C", [("D", -1)])]⟩ = "C") ∧
    qlookup [("C", [("D", -1)])] "C" "C" = none ∧
    specMaxNext [("C", [("D", -1)])] "C" = -1 ∧
    qlookup ((QLearningAgent.update ⟨⟨[⟨"C", "C", 0, 0⟩], 0, 1⟩, 1 / 10,
        19 / 20, 1 / 10, [("C", [("D", -1)])]⟩ "C" "C" 0).q_table)
      "C" "C" = some 0 ∧
    (0 : ℚ) + (1 / 10) * ((0 : ℚ) + (19 / 20) * (-1) - 0) ≠ 0 := by
  refine ⟨rfl, rfl, rfl, ?_, by norm_num⟩
  have h := qTableUpdate_lookup_self_corner (1 / 10) (19 / 20)
    [("C", [("D", -1)])] "C" "C" "C" 0 rfl rfl
  have hq : ((⟨⟨[⟨"C", "C", 0, 0⟩], 0, 1⟩, 1 / 10, 19 / 20, 1 / 10,
      [("C", [("D", -1)])]⟩ : QLearningAgent).update "C" "C" 0).q_table =
      QLearningAgent.qTableUpdate (1 / 10) (19 / 20)
        [("C", [("D", -1)])] "C" "C" "C" 0 := rfl
  rw [hq, h]
  norm_num [specMaxNext, alookup, listMax]

/-- Claim C2 (amended): one Q-update stores at (s, a), with s the
pre-round state and a the action taken, the value
oldValue + alpha * (payoff + gamma * maxNext - oldValue) and leaves every
other pair unchanged; maxNext is the maximum stored value over actions
under the new state s-prime (zero when none is stored), except that when
(s, a) was unstored and s-prime equals s, the zero entry that the
defaultdict read of Q(s, a) inserts joins that maximum. -/
theorem claim_C2_qlearning_update_amended :
    ∀ (ag : QLearningAgent) (my opp : String) (p : ℚ),
      (∀ s₂ a₂ : String, ¬(s₂ = ag.get_state ∧ a₂ = my) →
        qlookup (ag.update my opp p).q_table s₂ a₂ =
          qlookup ag.q_table s₂ a₂) ∧
      (qlookup ag.q_table ag.get_state my ≠ none ∨ opp ≠ ag.get_state →
        qlookup (ag.update my opp p).q_table ag.get_state my =
          some ((qlookup ag.q_table ag.get_state my).getD 0 + ag.alpha *
            (p + ag.gamma * specMaxNext ag.q_table opp -
              (qlookup ag.q_table ag.get_state my).getD 0))) ∧
      (qlookup ag.q_table ag.get_state my = none ∧ opp = ag.get_state →
        qlookup (ag.update my opp p).q_table ag.get_state my =
          some (0 + ag.alpha *
            (p + ag.gamma * max (specMaxNext ag.q_table opp) 0 - 0))) := by
  intro ag my opp p
  have hq : (ag.update my opp p).q_table =
      QLearningAgent.qTableUpdate ag.alpha ag.gamma ag.q_table
        ag.get_state my opp p := rfl
  refine ⟨fun s₂ a₂ hne => ?_, fun h => ?_, fun h => ?_⟩
  · rw [hq]
    exact qTableUpdate_frame _ _ _ _ _ _ _ _ _ hne
  · rw [hq]
    exact qTableUpdate_lookup_self_normal _ _ _ _ _ _ _ h
  · rw [hq]
    exact qTableUpdate_lookup_self_corner _ _ _ _ _ _ _ h.1 h.2

/-- Witness for claim C2 (amended) on a fresh learner with alpha = 1/10,
gamma = 19/20: after one update with action C, opponent D, payoff 5, the
value stored at (init, C) is 0 + (1/10)(5 + (19/20)*0 - 0) = 1/2, and an
untouched pair is unchanged. -/
theorem claim_C2_witness :
    qlookup ((QLearningAgent.init (1 / 10) (19 / 20) (1 / 10)).update
        "C" "D" 5).q_table "init" "C" =
      some ((0 : ℚ) + (1 / 10) * (5 + (19 / 20) * 0 - 0)) ∧
    qlookup ((QLearningAgent.init (1 / 10) (19 / 20) (1 / 10)).update
        "C" "D" 5).q_table "D" "C" = qlookup [] "D" "C" := by
  have h := claim_C2_qlearning_update_amended
    (QLearningAgent.init (1 / 10) (19 / 20) (1 / 10)) "C" "D" 5
  have h3 : (QLearningAgent.init (1 / 10) (19 / 20) (1 / 10)).get_state =
      "init" := rfl
  constructor
  · have h2 := h.2.1 (Or.inr (by decide))
    rw [h3] at h2
    rw [h2]
    norm_num [QLearningAgent.init, qlookup, alookup, specMaxNext]
  · exact h.1 "D" "C" (by decide)

/-- Claim C3: with fewer than 2 observed opponent actions the
frequency-based responder returns the cooperative/first symbol; with at
least 2 observations of a Prisoners Dilemma history of nC cooperations
and nD defections it estimates p = nC / (nC + nD) and returns the action
of higher expected payoff with ties to C, computed from the exact payoff
parameters of the constructed PrisonersDilemma: under the constructor
invariant T > R > P > S defection strictly dominates, so the source
formula written with the default constants returns the same action as
the best response under every valid parameterisation. -/
theorem claim_C3_fictitious_best_response :
    (∀ (ag : FictitiousPlay) (game_type : String),
      ag.countsTotal < 2 →
      ag.choose_action game_type =
        (if game_type = "PD" then "C" else "A")) ∧
    (∀ (R S T P : ℚ) (g : PrisonersDilemma),
      PrisonersDilemma.mk? R S T P = some g →
      ∀ (ag : FictitiousPlay) (nC nD : ℕ),
        ag.opponent_action_counts = [("C", nC), ("D", nD)] →
        2 ≤ nC + nD →
        ag.choose_action "PD" =
          specBestResponsePD g ((nC : ℚ) / ((nC : ℚ) + (nD : ℚ)))) := by
  constructor
  · intro ag game_type h
    simp [FictitiousPlay.choose_action, h]
  · intro R S T P g hg ag nC nD hc h2
    unfold PrisonersDilemma.mk? at hg
    split at hg
    case isFalse => cases hg
    case isTrue hcond =>
      cases hg
      obtain ⟨hTR, hRP, hPS⟩ := hcond
      have htot : ag.countsTotal = nC + nD := by
        simp [FictitiousPlay.countsTotal, hc]
      have hden : (0 : ℚ) < (nC : ℚ) + (nD : ℚ) := by
        have : (2 : ℚ) ≤ (nC : ℚ) + (nD : ℚ) := by exact_mod_cast h2
        linarith
      have hp : ag.get_opponent_probability "C" =
          (nC : ℚ) / ((nC : ℚ) + (nD : ℚ)) := by
        have hne : ¬(nC + nD = 0) := by omega
        simp [FictitiousPlay.get_opponent_probability, htot, hc, alookup,
          hne]
      have hp0 : 0 ≤ (nC : ℚ) / ((nC : ℚ) + (nD : ℚ)) := by positivity
      have hp1 : (nC : ℚ) / ((nC : ℚ) + (nD : ℚ)) ≤ 1 := by
        rw [div_le_one hden]
        have hd0 : (0 : ℚ) ≤ (nD : ℚ) := by positivity
        linarith
      have hnot2 : ¬ ag.countsTotal < 2 := by omega
      have hchoose : ag.choose_action "PD" = "D" := by
        have hcmp : ¬(3 * ((nC : ℚ) / ((nC : ℚ) + (nD : ℚ))) +
            0 * (1 - (nC : ℚ) / ((nC : ℚ) + (nD : ℚ))) ≥
            5 * ((nC : ℚ) / ((nC : ℚ) + (nD : ℚ))) +
            1 * (1 - (nC : ℚ) / ((nC : ℚ) + (nD : ℚ)))) := by
          push_neg
          linarith
        simp [FictitiousPlay.choose_action, hnot2, hp, hcmp]
        linarith
      have hspec : specBestResponsePD ⟨R, S, T, P⟩
          ((nC : ℚ) / ((nC : ℚ) + (nD : ℚ))) = "D" := by
        have hkey : ¬(R * ((nC : ℚ) / ((nC : ℚ) + (nD : ℚ))) +
            S * (1 - (nC : ℚ) / ((nC : ℚ) + (nD : ℚ))) ≥
            T * ((nC : ℚ) / ((nC : ℚ) + (nD : ℚ))) +
            P * (1 - (nC : ℚ) / ((nC : ℚ) + (nD : ℚ)))) := by
          push_neg
          rcases eq_or_lt_of_le hp0 with h0 | h0
          · rw [← h0]
            simp
            linarith
          · nlinarith [mul_pos (sub_pos.mpr hTR) h0,
              mul_nonneg (le_of_lt (sub_pos.mpr hPS))
                (sub_nonneg.mpr hp1)]
        simp [specBestResponsePD, hkey]
      rw [hchoose, hspec]

/-- Witness for claim C3: after the opponent history C, C, D the counts
are C=2, D=1, the estimate is 2/3, and both the source computation and
the best response from the default payoff parameters pick D; a history
of a single C stays in the cooperative fallback. -/
theorem claim_C3_witness :
    FictitiousPlay.choose_action ⟨BaseState.init, [("C", 2), ("D", 1)]⟩
      "PD" = "D" ∧
    specBestResponsePD ⟨3, 0, 5, 1⟩ ((2 : ℚ) / ((2 : ℚ) + (1 : ℚ))) =
      "D" ∧
    FictitiousPlay.choose_action ⟨BaseState.init, [("C", 1)]⟩ "PD" =
      "C" := by
  have h2 := claim_C3_fictitious_best_response.2 3 0 5 1 ⟨3, 0, 5, 1⟩
    (by decide) ⟨BaseState.init, [("C", 2), ("D", 1)]⟩ 2 1 rfl (by omega)
  have h1 := claim_C3_fictitious_best_response.1
    ⟨BaseState.init, [("C", 1)]⟩ "PD" (by decide)
  have hval : specBestResponsePD ⟨3, 0, 5, 1⟩
      (((2 : ℕ) : ℚ) / (((2 : ℕ) : ℚ) + ((1 : ℕ) : ℚ))) = "D" := by
    norm_num [specBestResponsePD]
  refine ⟨?_, ?_, by simpa using h1⟩
  · rw [h2, hval]
  · norm_num [specBestResponsePD]

/-- Witness for claim C6 in the Prisoners Dilemma: first call cooperates;
after playing D for payoff 5 ≥ 2 the agent stays with D; after playing D
for payoff 1 < 2 it shifts to C. -/
theorem claim_C6_witness :
    ((Pavlov.init 2).choose_action "PD").1 = some "C" ∧
    (((Pavlov.init 2).update "D" "C" 5).choose_action "PD").1 = some "D" ∧
    (((Pavlov.init 2).update "D" "D" 1).choose_action "PD").1 = some "C" := by
  refine ⟨(claim_C6_pavlov.2.1 2 "PD").trans (by decide), ?_, ?_⟩
  · exact ((claim_C6_pavlov.2.2 (Pavlov.init 2) "D" "C" 5 "PD").1
      (by norm_num [Pavlov.init]))
  · exact ((claim_C6_pavlov.2.2 (Pavlov.init 2) "D" "D" 1 "PD").2
      (by norm_num [Pavlov.init])).trans (by decide)

end Repo452
